import Mathlib

/-!
Shallow embedding of the bbs-rag backend (Python) in Lean 4.

Modelled source files:
* `backend/app/rag/loader.py` — `ThreadAwareLoader` (sliding-window chunker)
* `backend/app/sync/pipeline.py` — `DataSyncPipeline` (reply / sequential
  relationship inference, batch synchronization)
* `backend/app/models/graph.py` — `Post` / `Relationship` tables
* `backend/app/rag/graph_traversal.py` — `GraphTraverser` (recursive CTE)
* `backend/scripts/update_index.py` — incremental index rebuild loaders

Records and graph nodes are identified by their `no` / `source_post_no`
(a Python int, embedded as `Int`; the `posts.source_post_no` column is
UNIQUE, so a node's UUID `post_id` is in 1:1 correspondence with its
sequence number and edges are represented by the sequence numbers of
their endpoints).  A relational table is embedded as a `List` of rows;
`ORDER BY` is embedded as `List.insertionSort`.  The chunker's `while`
loop is embedded with explicit fuel: the second component of the result
is `true` iff the loop reached its exit condition within the given fuel
(i.e. the Python loop terminates and produces exactly the first
component).
-/

set_option maxRecDepth 8000

namespace BbsRag

/-! ### Python primitives -/

/-- Clamp a Python slice index to `[0, len]`: a negative index counts
from the end, an index past the end is clamped (CPython list slicing). -/
def pyIdx (len : Nat) (i : Int) : Nat :=
  if i < 0 then ((len : Int) + i).toNat else min i.toNat len

/-- Python `xs[a:b]` (step 1). -/
def pySlice {α : Type _} (xs : List α) (a b : Int) : List α :=
  (xs.take (pyIdx xs.length b)).drop (pyIdx xs.length a)

/-- Whitespace for Python `str.strip()` (ASCII subset). -/
def isPySpace (c : Char) : Bool :=
  c = ' ' ∨ c = '\t' ∨ c = '\n' ∨ c = '\r' ∨ c = '\x0b' ∨ c = '\x0c'

/-- Python `s.strip()`. -/
def pyStrip (s : String) : String :=
  String.mk (((s.toList.dropWhile isPySpace).reverse.dropWhile isPySpace).reverse)

/-- Python `s.split(sep)` for a one-character separator, on char lists. -/
def splitListOn (sep : Char) : List Char → List (List Char)
  | [] => [[]]
  | c :: rest =>
    match splitListOn sep rest with
    | [] => [[]]
    | g :: gs => if c = sep then [] :: g :: gs else (c :: g) :: gs

/-- Decimal value of a digit run. -/
def digitsToNat (cs : List Char) : Nat :=
  cs.foldl (fun acc c => 10 * acc + (c.toNat - 48)) 0

/-- Unsigned part of Python `int(·)`: groups separated by `_` must all be
nonempty digit runs (`"1_000"` is valid, `""`, `"_1"`, `"1__2"` are not). -/
def parseUDec (cs : List Char) : Option Nat :=
  let groups := splitListOn '_' cs
  if groups.all (fun g => !g.isEmpty && g.all Char.isDigit) then
    some (digitsToNat (groups.foldr (· ++ ·) []))
  else
    none

/-- Python `int(s)` on a decimal string (raises → `none`). -/
def pyParseInt (s : String) : Option Int :=
  match (pyStrip s).toList with
  | '+' :: rest => (parseUDec rest).map Int.ofNat
  | '-' :: rest => (parseUDec rest).map (fun n => -(n : Int))
  | rest => (parseUDec rest).map Int.ofNat

/-! ### Sliding-window chunker (`app/rag/loader.py`, `ThreadAwareLoader`) -/

/-- `ThreadAwareLoader.__init__` state: `window_size`, `overlap` and the
derived `stride = window_size - overlap` (loader.py lines 77-86; there is
no validation of any of the three). -/
structure ThreadAwareLoader where
  window_size : Int
  overlap : Int
  stride : Int
deriving DecidableEq

/-- `ThreadAwareLoader(window_size, overlap)` — the constructor body. -/
def ThreadAwareLoader.init (window_size overlap : Int) : ThreadAwareLoader :=
  ⟨window_size, overlap, window_size - overlap⟩

/-- The position update at the end of one loop iteration of
`ThreadAwareLoader.lazy_load` (loader.py lines 140-147):
`position += stride`, then the tail-snap
`if position < len(all_docs) and (len(all_docs) - position) < overlap:
position = max(0, len(all_docs) - window_size)`. -/
def nextPos (L : ThreadAwareLoader) (docs : List Int) (position : Int) : Int :=
  let position' := position + L.stride
  if position' < (docs.length : Int) ∧
      (docs.length : Int) - position' < L.overlap then
    max 0 ((docs.length : Int) - L.window_size)
  else position'

/-- One document of the base loader is represented by its `no` metadata
(records are yielded by `PostgresResLoader` in ascending `no` order);
a window is the list of member `no`s, in order.

`windowsAux L docs fuel position` runs the `while position < len(all_docs)`
loop of `ThreadAwareLoader.lazy_load` (loader.py lines 100-147) for at most
`fuel` iterations: each iteration emits the window
`all_docs[position : min(position + window_size, len(all_docs))]` (if
nonempty) and advances the position with `nextPos`.  The boolean is
`true` iff the loop exited (`position ≥ len(all_docs)`) within `fuel`. -/
def windowsAux (L : ThreadAwareLoader) (docs : List Int) :
    Nat → Int → List (List Int) × Bool
  | 0, _ => ([], false)
  | fuel + 1, position =>
    if position < (docs.length : Int) then
      let window_docs :=
        pySlice docs position (min (position + L.window_size) (docs.length : Int))
      let rest := windowsAux L docs fuel (nextPos L docs position)
      ((if window_docs.isEmpty then [] else [window_docs]) ++ rest.1, rest.2)
    else ([], true)

/-- `ThreadAwareLoader.lazy_load` applied to the loaded record sequence. -/
def ThreadAwareLoader.lazy_load (L : ThreadAwareLoader) (docs : List Int)
    (fuel : Nat) : List (List Int) × Bool :=
  windowsAux L docs fuel 0

/-- `(start_no, end_no)` metadata of an emitted window (loader.py lines
122-135: the first and last member's `no`). -/
def windowRange (ws : List Int) : Int × Int :=
  (ws.head?.getD 0, ws.getLast?.getD 0)

/-- The record sequence `No.a .. No.(a+n-1)`. -/
def recordSeq (a n : Nat) : List Int :=
  (List.range' a n).map (fun k => (k : Int))

/-! ### Graph model (`app/models/graph.py`) and sync pipeline
(`app/sync/pipeline.py`)

A `relationships` row.  `source_node_id` / `target_node_id` are UUID
foreign keys into `posts`; since `posts.source_post_no` is UNIQUE, each
endpoint is represented here by its post's `source_post_no`.  `dist` is
`properties.distance` when present (`properties.confidence`, a constant
0.8 for reply edges, is not represented).  The table declares **no**
uniqueness constraint over `(source_node_id, target_node_id,
relationship_type)` — its only key is the fresh-UUID `relationship_id`. -/
structure Rel where
  source_no : Int
  target_no : Int
  rtype : String
  dist : Option Int
deriving DecidableEq

/-- `ORDER BY no ASC`. -/
def sortAsc (l : List Int) : List Int := l.insertionSort (· ≤ ·)

/-- `ORDER BY no DESC`. -/
def sortDesc (l : List Int) : List Int := l.insertionSort (fun a b => b ≤ a)

/-- `session.add(relationship)` on a table with no unique constraint on
`(source, target, type)`: an unconditional row insert. -/
def insert_edge (db : List Rel) (r : Rel) : List Rel := db ++ [r]

/-- The `(source, target, type)` triple of an edge. -/
def edgeTriple (r : Rel) : Int × Int × String :=
  (r.source_no, r.target_no, r.rtype)

/-- `DataSyncPipeline.get_last_processed_no`:
`SELECT max(source_post_no)` over the RAG store (`rag` is the list of
`source_post_no`s present), with SQL `NULL` (empty table) mapped to 0 by
`result or 0`. -/
def get_last_processed_no : List Int → Int
  | [] => 0
  | x :: xs => xs.foldl max x

/-- `DataSyncPipeline.extract_new_posts`: source records with
`no > last_no`, `ORDER BY no ASC LIMIT limit`. -/
def extract_new_posts (source : List Int) (last_no : Int) (limit : Nat) :
    List Int :=
  (sortAsc (source.filter (fun no => decide (last_no < no)))).take limit

/-- The context set of `infer_reply_relationships` (pipeline.py lines
78-87): the `context_window` most recent posts with
`source_post_no < post.source_post_no` (`ORDER BY source_post_no DESC
LIMIT context_window`). -/
def contextSet (post_no : Int) (rag : List Int) (context_window : Nat) :
    List Int :=
  (sortDesc (rag.filter (fun no => decide (no < post_no)))).take context_window

/-- Parse of the oracle reply text (pipeline.py line 118):
`[int(no.strip()) for no in reply_text.split(",")]`; `none` models the
comprehension raising `ValueError`. -/
def replyNos (reply_text : String) : Option (List Int) :=
  (splitListOn ',' reply_text.toList).mapM fun tok =>
    pyParseInt (String.mk tok)

/-- `DataSyncPipeline.infer_reply_relationships` (pipeline.py lines
73-137).  `rag` is the set of `source_post_no`s in the RAG store at call
time (in `sync_batch` this includes the just-flushed post itself);
`response` is the oracle's answer for this post.  Exceptions from the
parse are caught (`except (ValueError, AttributeError)`) leaving the
accumulated `relationships = []`, so the embedding is total. -/
def infer_reply_relationships (post_no : Int) (rag : List Int)
    (context_window : Nat) (response : String) : List Rel :=
  let recent_posts := contextSet post_no rag context_window
  if recent_posts.isEmpty then []
  else
    let reply_text := pyStrip response
    if reply_text ≠ "NONE" ∧ reply_text ≠ "" then
      match replyNos reply_text with
      | none => []
      | some reply_nos =>
        reply_nos.filterMap fun reply_no =>
          if reply_no ∈ rag then
            some ⟨post_no, reply_no, "IS_REPLY_TO", none⟩
          else none
    else []

/-- `DataSyncPipeline.create_sequential_relationships` (pipeline.py lines
139-178): the next `window_size` rows of the **source** table with
`no > post.source_post_no` (`ORDER BY no ASC LIMIT window_size`), keeping
those whose `no` exists in the RAG store, each as an `IS_SEQUENTIAL_TO`
edge with `properties.distance = row.no - post.source_post_no`. -/
def create_sequential_relationships (post_no : Int) (source rag : List Int)
    (window_size : Nat) : List Rel :=
  let rows := (sortAsc (source.filter (fun no => decide (post_no < no)))).take
    window_size
  (rows.filter (fun no => decide (no ∈ rag))).map fun no =>
    ⟨post_no, no, "IS_SEQUENTIAL_TO", some (no - post_no)⟩

/-- The per-record loop of `DataSyncPipeline.sync_batch` (pipeline.py
lines 198-226): for each new post in order, add + flush the node, infer
reply relationships (context window 50, oracle answer `oracle no`), then
sequential relationships (window 20).  Returns
`(processed_count, staged relationship rows, final node set)`. -/
def syncLoop (oracle : Int → String) (source : List Int) :
    List Int → List Int → Nat × List Rel × List Int
  | [], rag => (0, [], rag)
  | no :: rest, rag =>
    let rag' := rag ++ [no]
    let reply_rels := infer_reply_relationships no rag' 50 (oracle no)
    let seq_rels := create_sequential_relationships no source rag' 20
    let r := syncLoop oracle source rest rag'
    (r.1 + 1, reply_rels ++ seq_rels ++ r.2.1, r.2.2)

/-- `DataSyncPipeline.sync_batch` (pipeline.py lines 180-229). -/
def sync_batch (oracle : Int → String) (source rag : List Int)
    (batch_size : Nat) : Nat × List Rel × List Int :=
  let last_no := get_last_processed_no rag
  let new_posts := extract_new_posts source last_no batch_size
  syncLoop oracle source new_posts rag

/-! ### Incremental index rebuild (`scripts/update_index.py`) -/

/-- `IncrementalThreadAwareLoader.__init__` (update_index.py line 113):
`rebuild_start = max(0, start_no - window_size)`. -/
def rebuild_start (start_no window_size : Int) : Int :=
  max 0 (start_no - window_size)

/-- `IncrementalPostgresResLoader.lazy_load` (update_index.py lines
61-103) reads, in ascending batches, exactly the records with
`no > rebuild_start`. -/
def incremental_read (records : List Int) (start_no window_size : Int) :
    List Int :=
  sortAsc (records.filter (fun no =>
    decide (rebuild_start start_no window_size < no)))

/-- `IncrementalThreadAwareLoader.lazy_load` (update_index.py lines
115-121): the parent sliding-window pass over the incrementally re-read
suffix. -/
def incremental_lazy_load (start_no window_size overlap : Int)
    (records : List Int) (fuel : Nat) : List (List Int) × Bool :=
  ThreadAwareLoader.lazy_load (.init window_size overlap)
    (incremental_read records start_no window_size) fuel

/-! ### Graph traversal (`app/rag/graph_traversal.py`) -/

/-- A `posts` row as seen by the traversal query: its UUID primary key
(embedded as `Nat`) and its `source_post_no` (`content` / `timestamp`
are carried along in the SQL projection but are functionally determined
by `post_id`, so they are omitted). -/
structure GPost where
  post_id : Nat
  source_post_no : Int
deriving DecidableEq

/-- A `relationships` row as joined by the traversal query. -/
structure GEdge where
  source_node_id : Nat
  target_node_id : Nat
  relationship_type : String
deriving DecidableEq

/-- A row of the recursive CTE `graph_traversal`: the post reached, its
depth, and the `path` array of post ids taken to reach it. -/
structure TRow where
  node : GPost
  depth : Nat
  path : List Nat
deriving DecidableEq

/-- Concatenation of mapped lists (the row set produced by a join). -/
def concatMap {α β : Type _} (f : α → List β) : List α → List β
  | [] => []
  | x :: xs => f x ++ concatMap f xs

/-- The `rel_filter` (graph_traversal.py lines 47-51): a filter is added
only `if relationship_types:` — `None` and the empty list both mean "all
types". -/
def typeOk (relationship_types : Option (List String)) (e : GEdge) : Bool :=
  match relationship_types with
  | none => true
  | some ts => if ts.isEmpty then true else ts.contains e.relationship_type

/-- Base case of the CTE (graph_traversal.py lines 56-65): the seed posts
at depth 0, each with path `ARRAY[p.post_id]`. -/
def base_rows (posts : List GPost) (start_post_ids : List Nat) : List TRow :=
  (posts.filter (fun p => decide (p.post_id ∈ start_post_ids))).map
    fun p => ⟨p, 0, [p.post_id]⟩

/-- Recursive case of the CTE (graph_traversal.py lines 69-90) for one
frontier row: join `relationships` touching the row's post in either
direction (with the type filter), join `posts` on the opposite endpoint,
keep neighbours not already on the row's path (`NOT p.post_id =
ANY(gt.path)`), at depth + 1 with the neighbour appended to the path. -/
def expand_row (posts : List GPost) (edges : List GEdge)
    (relationship_types : Option (List String)) (r : TRow) : List TRow :=
  concatMap
    (fun e =>
      let nbr := if e.source_node_id = r.node.post_id then e.target_node_id
        else e.source_node_id
      (posts.filter (fun p =>
          decide (p.post_id = nbr) && decide (p.post_id ∉ r.path))).map
        fun p => ⟨p, r.depth + 1, r.path ++ [p.post_id]⟩)
    (edges.filter fun e =>
      decide (e.source_node_id = r.node.post_id ∨
        e.target_node_id = r.node.post_id) && typeOk relationship_types e)

/-- The rows of the CTE produced at iteration `d` (all at depth `d`). -/
def cte_level (posts : List GPost) (edges : List GEdge)
    (relationship_types : Option (List String)) (start_post_ids : List Nat) :
    Nat → List TRow
  | 0 => base_rows posts start_post_ids
  | d + 1 => concatMap (expand_row posts edges relationship_types)
      (cte_level posts edges relationship_types start_post_ids d)

/-- The full CTE row set: levels `0 .. max_depth` (the guard
`gt.depth < :max_depth` stops expansion of depth-`max_depth` rows). -/
def cte_rows (posts : List GPost) (edges : List GEdge)
    (relationship_types : Option (List String)) (start_post_ids : List Nat) :
    Nat → List TRow
  | 0 => cte_level posts edges relationship_types start_post_ids 0
  | d + 1 => cte_rows posts edges relationship_types start_post_ids d ++
      cte_level posts edges relationship_types start_post_ids (d + 1)

/-- `ORDER BY source_post_no` on posts. -/
def postLe (a b : GPost) : Prop := a.source_post_no ≤ b.source_post_no

instance : DecidableRel postLe := fun a b =>
  inferInstanceAs (Decidable (a.source_post_no ≤ b.source_post_no))

instance : IsTotal GPost postLe :=
  ⟨fun a b => Int.le_total a.source_post_no b.source_post_no⟩

instance : IsTrans GPost postLe := ⟨fun _ _ _ => Int.le_trans⟩

/-- `GraphTraverser.get_related_posts_recursive` (graph_traversal.py
lines 28-121): empty seed short-circuit, then
`SELECT DISTINCT post_id, source_post_no, content, timestamp FROM
graph_traversal ORDER BY source_post_no LIMIT :max_nodes`. -/
def get_related_posts_recursive (posts : List GPost) (edges : List GEdge)
    (start_post_ids : List Nat) (relationship_types : Option (List String))
    (max_depth max_nodes : Nat) : List GPost :=
  if start_post_ids.isEmpty then []
  else
    ((((cte_rows posts edges relationship_types start_post_ids
          max_depth).map TRow.node).dedup).insertionSort postLe).take max_nodes

/-- The arithmetic sequence `n+1, n+2, …, n+w` (used to state what the
sequential-edge candidate rows are when the source numbering is dense). -/
def seqRange (n : Int) (w : Nat) : List Int :=
  List.map (fun k : Nat => n + (k : Int)) (List.range' 1 w)

/-! ### Helper lemmas -/

theorem pySlice_length {α : Type _} (xs : List α) (a b : Int) (ha : 0 ≤ a)
    (hab : a ≤ b) (hb : b ≤ (xs.length : Int)) :
    ((pySlice xs a b).length : Int) = b - a := by
  simp only [pySlice, pyIdx, List.length_drop, List.length_take]
  rw [if_neg (by omega), if_neg (by omega)]
  omega

theorem pySlice_subset {α : Type _} (xs : List α) (a b : Int) :
    pySlice xs a b ⊆ xs := fun _ hx =>
  (List.take_sublist _ _).subset ((List.drop_sublist _ _).subset hx)

theorem windowsAux_subset (L : ThreadAwareLoader) (docs : List Int) :
    ∀ (fuel : Nat) (p : Int), ∀ ws ∈ (windowsAux L docs fuel p).1, ws ⊆ docs := by
  intro fuel
  induction fuel with
  | zero => intro p ws hws; simp [windowsAux] at hws
  | succ n ih =>
    intro p ws hws
    rw [windowsAux] at hws
    by_cases hplt : p < (docs.length : Int)
    · rw [if_pos hplt] at hws
      simp only [List.mem_append] at hws
      rcases hws with hws | hws
      · rcases Decidable.em
          ((pySlice docs p
            (min (p + L.window_size) (docs.length : Int))).isEmpty = true) with
          he | he
        · rw [if_pos he] at hws
          simp at hws
        · rw [if_neg he] at hws
          simp only [List.mem_singleton] at hws
          subst hws
          exact pySlice_subset docs _ _
      · exact ih (nextPos L docs p) ws hws
    · rw [if_neg hplt] at hws
      simp at hws

/-- Loop invariant of the chunker when `stride ≥ 1`, `overlap ≥ 0` and
the input holds at least one full window: every loop-entry position is
nonnegative and (when a window will be emitted) at least `overlap`
records remain. -/
theorem nextPos_invariant (w ov : Int) (docs : List Int) (hov : 0 ≤ ov)
    (hs : 1 ≤ w - ov) (hlen : w ≤ (docs.length : Int)) (p : Int)
    (hp0 : 0 ≤ p) :
    0 ≤ nextPos (.init w ov) docs p ∧
      (nextPos (.init w ov) docs p < (docs.length : Int) →
        ov ≤ (docs.length : Int) - nextPos (.init w ov) docs p) := by
  simp only [nextPos, ThreadAwareLoader.init]
  by_cases hsnap : p + (w - ov) < (docs.length : Int) ∧
      (docs.length : Int) - (p + (w - ov)) < ov
  · rw [if_pos hsnap]
    constructor
    · exact le_max_left 0 _
    · intro _
      rw [max_def]
      split <;> omega
  · rw [if_neg hsnap]
    rw [Decidable.not_and_iff_or_not] at hsnap
    constructor
    · omega
    · intro hlt
      rcases hsnap with h | h
      · omega
      · omega

theorem windowsAux_size_ge (w ov : Int) (docs : List Int) (hov : 0 ≤ ov)
    (hs : 1 ≤ w - ov) (hlen : w ≤ (docs.length : Int)) :
    ∀ (fuel : Nat) (p : Int), 0 ≤ p →
      (p < (docs.length : Int) → ov ≤ (docs.length : Int) - p) →
      ∀ ws ∈ (windowsAux (.init w ov) docs fuel p).1, ov ≤ (ws.length : Int) := by
  intro fuel
  induction fuel with
  | zero => intro p _ _ ws hws; simp [windowsAux] at hws
  | succ n ih =>
    intro p hp0 hpinv ws hws
    rw [windowsAux] at hws
    by_cases hplt : p < (docs.length : Int)
    · rw [if_pos hplt] at hws
      simp only [List.mem_append] at hws
      have hslice : ((pySlice docs p
          (min (p + (ThreadAwareLoader.init w ov).window_size)
            (docs.length : Int))).length : Int) =
          min (p + w) (docs.length : Int) - p := by
        apply pySlice_length
        · exact hp0
        · simp only [ThreadAwareLoader.init]
          have := hpinv hplt
          rw [min_def]
          split <;> omega
        · exact min_le_right _ _
      rcases hws with hws | hws
      · rcases Decidable.em
          ((pySlice docs p
            (min (p + (ThreadAwareLoader.init w ov).window_size)
              (docs.length : Int))).isEmpty = true) with he | he
        · rw [if_pos he] at hws
          simp at hws
        · rw [if_neg he] at hws
          simp only [List.mem_singleton] at hws
          subst hws
          have := hpinv hplt
          rw [hslice]
          rw [min_def]
          split <;> omega
      · have hinv := nextPos_invariant w ov docs hov hs hlen p hp0
        exact ih (nextPos (.init w ov) docs p) hinv.1 hinv.2 ws hws
    · rw [if_neg hplt] at hws
      simp at hws

/-- With at least one full window of input, the first emitted window has
exactly `window_size` members. -/
theorem windowsAux_head (w ov : Int) (docs : List Int) (h1 : 1 ≤ w)
    (hlen : w ≤ (docs.length : Int)) (fuel : Nat) :
    ((windowsAux (.init w ov) docs (fuel + 1) 0).1.head?.map
      (fun ws => (ws.length : Int))) = some w := by
  rw [windowsAux]
  have hplt : (0 : Int) < (docs.length : Int) := by omega
  rw [if_pos hplt]
  have hslice : ((pySlice docs 0
      (min (0 + (ThreadAwareLoader.init w ov).window_size)
        (docs.length : Int))).length : Int) = w := by
    rw [pySlice_length docs 0 _ le_rfl
      (by simp only [ThreadAwareLoader.init]; omega)
      (min_le_right _ _)]
    simp only [ThreadAwareLoader.init]
    omega
  have hne : ¬ ((pySlice docs 0
      (min (0 + (ThreadAwareLoader.init w ov).window_size)
        (docs.length : Int))).isEmpty = true) := by
    rw [List.isEmpty_iff]
    intro h
    rw [h] at hslice
    simp at hslice
    omega
  simp only [if_neg hne, List.cons_append, List.head?_cons]
  simpa using hslice

/-- `nextPos` is the identity at position 0 when `stride = 0`
(configuration `overlap = window_size`): the loop never advances. -/
theorem nextPos_zero_stride (w : Int) (docs : List Int) :
    nextPos (.init w w) docs 0 = 0 := by
  simp only [nextPos, ThreadAwareLoader.init, sub_self, add_zero]
  split
  · rw [max_def]
    split <;> omega
  · rfl

theorem sortAsc_mem (l : List Int) (x : Int) : x ∈ sortAsc l ↔ x ∈ l :=
  (List.perm_insertionSort _ l).mem_iff

theorem sortAsc_sorted (l : List Int) : List.Pairwise (· ≤ ·) (sortAsc l) :=
  List.sorted_insertionSort _ l

theorem le_foldl_max (xs : List Int) (a : Int) :
    a ≤ xs.foldl max a ∧ ∀ m ∈ xs, m ≤ xs.foldl max a := by
  induction xs generalizing a with
  | nil => simp
  | cons x xs ih =>
    simp only [List.foldl_cons]
    obtain ⟨h1, h2⟩ := ih (max a x)
    refine ⟨le_trans (le_max_left a x) h1, ?_⟩
    intro m hm
    rcases List.mem_cons.mp hm with rfl | hm
    · exact le_trans (le_max_right a m) h1
    · exact h2 m hm

theorem mem_le_get_last_processed_no (rag : List Int) :
    ∀ m ∈ rag, m ≤ get_last_processed_no rag := by
  cases rag with
  | nil => simp
  | cons x xs =>
    intro m hm
    rcases List.mem_cons.mp hm with rfl | hm
    · exact (le_foldl_max xs m).1
    · exact (le_foldl_max xs x).2 m hm

/-- If every node in the store has `source_post_no ≤ post_no`, the
sequential-relationship query finds no candidate present in the store. -/
theorem create_seq_eq_nil (post_no : Int) (source rag : List Int) (w : Nat)
    (h : ∀ m ∈ rag, m ≤ post_no) :
    create_sequential_relationships post_no source rag w = [] := by
  have hfil : ((sortAsc (source.filter
      (fun no => decide (post_no < no)))).take w).filter
      (fun no => decide (no ∈ rag)) = [] := by
    rw [List.filter_eq_nil_iff]
    intro x hx
    simp only [decide_eq_true_eq]
    intro hxr
    have hx' : x ∈ source.filter (fun no => decide (post_no < no)) :=
      (sortAsc_mem _ x).mp ((List.take_sublist _ _).subset hx)
    have hlt := (List.mem_filter.mp hx').2
    simp only [decide_eq_true_eq] at hlt
    exact absurd (h x hxr) (not_le.mpr hlt)
  simp only [create_sequential_relationships]
  rw [hfil]
  rfl

/-- Every edge produced by reply inference carries type `IS_REPLY_TO`. -/
theorem infer_reply_rtype (post_no : Int) (rag : List Int) (cw : Nat)
    (resp : String) :
    ∀ e ∈ infer_reply_relationships post_no rag cw resp,
      e.rtype = "IS_REPLY_TO" := by
  intro e he
  simp only [infer_reply_relationships] at he
  by_cases h1 : (contextSet post_no rag cw).isEmpty
  · rw [if_pos h1] at he; simp at he
  · rw [if_neg h1] at he
    by_cases h2 : pyStrip resp ≠ "NONE" ∧ pyStrip resp ≠ ""
    · rw [if_pos h2] at he
      cases hp : replyNos (pyStrip resp) with
      | none => rw [hp] at he; simp at he
      | some nos =>
        rw [hp] at he
        rw [List.mem_filterMap] at he
        obtain ⟨a, _, hfa⟩ := he
        by_cases har : a ∈ rag
        · rw [if_pos har] at hfa
          cases hfa
          rfl
        · rw [if_neg har] at hfa
          cases hfa
    · rw [if_neg h2] at he; simp at he

/-- The per-record sync loop never stages a sequential edge when the
incoming posts are ascending and all above every stored node. -/
theorem syncLoop_no_sequential (oracle : Int → String) (source : List Int) :
    ∀ (ns rag : List Int), List.Pairwise (· ≤ ·) ns →
      (∀ m ∈ rag, ∀ n ∈ ns, m ≤ n) →
      ∀ e ∈ (syncLoop oracle source ns rag).2.1,
        e.rtype ≠ "IS_SEQUENTIAL_TO" := by
  intro ns
  induction ns with
  | nil => intro rag _ _ e he; simp [syncLoop] at he
  | cons n rest ih =>
    intro rag hpw hle e he
    have hragn : ∀ m ∈ rag ++ [n], m ≤ n := by
      intro m hm
      rcases List.mem_append.mp hm with hm | hm
      · exact hle m hm n (List.mem_cons_self n rest)
      · rw [List.mem_singleton] at hm
        exact le_of_eq hm
    have hnext : ∀ m ∈ rag ++ [n], ∀ k ∈ rest, m ≤ k := by
      intro m hm k hk
      rcases List.mem_append.mp hm with hm | hm
      · exact hle m hm k (List.mem_cons_of_mem n hk)
      · rw [List.mem_singleton] at hm
        subst hm
        exact List.rel_of_pairwise_cons hpw hk
    simp only [syncLoop, List.mem_append] at he
    rcases he with (he | he) | he
    · have := infer_reply_rtype n (rag ++ [n]) 50 (oracle n) e he
      rw [this]
      decide
    · rw [create_seq_eq_nil n source (rag ++ [n]) 20 hragn] at he
      simp at he
    · exact ih (rag ++ [n]) hpw.of_cons hnext e he

theorem mem_concatMap {α β : Type _} (f : α → List β) (l : List α) (b : β) :
    b ∈ concatMap f l ↔ ∃ a ∈ l, b ∈ f a := by
  induction l with
  | nil => simp [concatMap]
  | cons x xs ih => simp [concatMap, List.mem_append, ih]

/-- Every CTE row of iteration `d` has depth `d` and a duplicate-free
path. -/
theorem cte_level_spec (posts : List GPost) (edges : List GEdge)
    (rts : Option (List String)) (seeds : List Nat) :
    ∀ d, ∀ r ∈ cte_level posts edges rts seeds d,
      r.depth = d ∧ r.path.Nodup := by
  intro d
  induction d with
  | zero =>
    intro r hr
    simp only [cte_level, base_rows, List.mem_map] at hr
    obtain ⟨p, _, rfl⟩ := hr
    exact ⟨rfl, List.nodup_singleton _⟩
  | succ d ih =>
    intro r hr
    simp only [cte_level] at hr
    rw [mem_concatMap] at hr
    obtain ⟨r0, hr0, hr'⟩ := hr
    simp only [expand_row] at hr'
    rw [mem_concatMap] at hr'
    obtain ⟨e, _, hr''⟩ := hr'
    rw [List.mem_map] at hr''
    obtain ⟨p, hp, rfl⟩ := hr''
    have hp2 := (List.mem_filter.mp hp).2
    simp only [Bool.and_eq_true, decide_eq_true_eq] at hp2
    obtain ⟨hd, hn⟩ := ih r0 hr0
    refine ⟨by simp [hd], ?_⟩
    simp only [List.nodup_append, List.nodup_singleton, true_and]
    exact ⟨hn, by simpa using hp2.2⟩

/-- Every row of the full CTE has depth at most `max_depth` and a
duplicate-free path. -/
theorem cte_rows_spec (posts : List GPost) (edges : List GEdge)
    (rts : Option (List String)) (seeds : List Nat) :
    ∀ maxd, ∀ r ∈ cte_rows posts edges rts seeds maxd,
      r.depth ≤ maxd ∧ r.path.Nodup := by
  intro maxd
  induction maxd with
  | zero =>
    intro r hr
    have h := cte_level_spec posts edges rts seeds 0 r hr
    exact ⟨le_of_eq h.1, h.2⟩
  | succ d ih =>
    intro r hr
    simp only [cte_rows, List.mem_append] at hr
    rcases hr with hr | hr
    · have h := ih r hr
      exact ⟨le_trans h.1 (Nat.le_succ d), h.2⟩
    · have h := cte_level_spec posts edges rts seeds (d + 1) r hr
      exact ⟨le_of_eq h.1, h.2⟩

/-- In a `≤`-sorted integer list, if at least `w` elements are `≤ b`,
then the first `w` elements are all `≤ b`. -/
theorem sorted_take_le (b : Int) : ∀ (l : List Int),
    List.Pairwise (· ≤ ·) l →
    ∀ (w : Nat), w ≤ (l.filter (fun x => decide (x ≤ b))).length →
    ∀ x ∈ l.take w, x ≤ b := by
  intro l
  induction l with
  | nil => intro _ w _ x hx; simp at hx
  | cons a t ih =>
    intro hs w hw x hx
    by_cases hab : a ≤ b
    · cases w with
      | zero => simp at hx
      | succ w' =>
        rw [List.take_succ_cons] at hx
        rcases List.mem_cons.mp hx with rfl | hx'
        · exact hab
        · refine ih hs.of_cons w' ?_ x hx'
          rw [List.filter_cons, if_pos (by simpa using hab)] at hw
          simpa using Nat.le_of_succ_le_succ (by simpa using hw)
    · have hft : t.filter (fun x => decide (x ≤ b)) = [] := by
        rw [List.filter_eq_nil_iff]
        intro y hy
        simp only [decide_eq_true_eq]
        have := List.rel_of_pairwise_cons hs hy
        omega
      rw [List.filter_cons, if_neg (by simpa using hab), hft] at hw
      have : w = 0 := by simpa using hw
      subst this
      simp at hx

/-- A strictly increasing integer list with all elements in `(lo, hi]`
has at most `hi − lo` elements. -/
theorem length_le_of_strict_bounded : ∀ (l : List Int),
    List.Pairwise (· < ·) l →
    ∀ (lo hi : Int), (∀ x ∈ l, lo < x ∧ x ≤ hi) →
    (l.length : Int) ≤ max 0 (hi - lo) := by
  intro l
  induction l with
  | nil =>
    intro _ lo hi _
    have h0 : ((([] : List Int).length : Nat) : Int) = 0 := rfl
    rw [h0]
    exact le_max_left 0 (hi - lo)
  | cons a t ih =>
    intro hp lo hi hb
    have ha := hb a (List.mem_cons_self a t)
    have ht : ∀ x ∈ t, a < x ∧ x ≤ hi := fun x hx =>
      ⟨List.rel_of_pairwise_cons hp hx, (hb x (List.mem_cons_of_mem a hx)).2⟩
    have hih := ih hp.of_cons a hi ht
    simp only [List.length_cons]
    push_cast
    rw [max_def] at hih ⊢
    split at hih <;> split <;> omega

theorem seqRange_succ (n : Int) (w : Nat) :
    seqRange n (w + 1) = (n + 1) :: seqRange (n + 1) w := by
  simp only [seqRange]
  rw [List.range'_succ]
  simp only [List.map_cons, Nat.cast_one]
  congr 1
  rw [List.range'_eq_map_range, List.range'_eq_map_range]
  simp only [List.map_map]
  apply List.map_congr_left
  intro k _
  simp only [Function.comp_apply]
  push_cast
  ring

/-- A strictly increasing integer list of length `w` whose elements all
lie in `(n, n + w]` is forced to be `n+1, n+2, …, n+w`. -/
theorem eq_seqRange_of_strict_bounded : ∀ (w : Nat) (n : Int) (l : List Int),
    List.Pairwise (· < ·) l → l.length = w →
    (∀ x ∈ l, n < x ∧ x ≤ n + (w : Int)) → l = seqRange n w := by
  intro w
  induction w with
  | zero =>
    intro n l _ hl _
    rw [List.length_eq_zero] at hl
    subst hl
    rfl
  | succ w ih =>
    intro n l hp hl hb
    cases l with
    | nil => simp at hl
    | cons a t =>
      have ha := hb a (List.mem_cons_self a t)
      have ht : ∀ x ∈ t, a < x ∧ x ≤ n + ((w : Int) + 1) := fun x hx =>
        ⟨List.rel_of_pairwise_cons hp hx, by
          have := (hb x (List.mem_cons_of_mem a hx)).2
          push_cast at this
          omega⟩
      have hlen : t.length = w := by simpa using hl
      have hC := length_le_of_strict_bounded t hp.of_cons a
        (n + ((w : Int) + 1)) ht
      have ha1 : a = n + 1 := by
        rw [hlen, max_def] at hC
        push_cast at ha
        split at hC <;> omega
      subst ha1
      have hteq := ih (n + 1) t hp.of_cons hlen (fun x hx =>
        ⟨(ht x hx).1, by have := (ht x hx).2; omega⟩)
      rw [hteq, seqRange_succ]

/-- Membership in `seqRange` is exactly the integer interval
`(n, n + w]`. -/
theorem mem_seqRange (n t : Int) (w : Nat) :
    t ∈ seqRange n w ↔ n < t ∧ t ≤ n + (w : Int) := by
  constructor
  · intro h
    rw [seqRange, List.mem_map] at h
    obtain ⟨k, hk, rfl⟩ := h
    rw [List.mem_range'_1] at hk
    omega
  · rintro ⟨h1, h2⟩
    rw [seqRange, List.mem_map]
    exact ⟨(t - n).toNat, List.mem_range'_1.mpr ⟨by omega, by omega⟩, by omega⟩

/-! ### Claim theorems -/

/-- C1, counterexample.  The claim: with `window_size=50, overlap=20` on
records `No.1..No.130` the emitted windows are exactly
`[1,50], [31,80], [61,110], [81,130]` and no others.  The code's loop
(loader.py lines 100-147) emits a window *before* the tail-snap check,
and keeps looping after snapping, so the emitted `(start_no, end_no)`
sequence is not the claimed four windows (the run completes: the
returned flag is `true`). -/
theorem C1_counterexample :
    (ThreadAwareLoader.lazy_load (.init 50 20) (recordSeq 1 130) 20).2 = true ∧
    ((ThreadAwareLoader.lazy_load (.init 50 20) (recordSeq 1 130) 20).1.map
      windowRange) ≠ [(1, 50), (31, 80), (61, 110), (81, 130)] := by
  decide

/-- C1, amended.  On records `No.1..No.130` with `window_size=50,
overlap=20` the chunker terminates and emits exactly the six windows
`[1,50], [31,80], [61,110], [91,130], [81,130], [111,130]` in this
order: the `[91,130]` window is emitted before the tail-snap triggers
(40 remaining ≥ overlap), the snap then rewinds to 81 producing
`[81,130]`, and the loop continues to emit the short `[111,130]`. -/
theorem C1_amended_windows :
    (ThreadAwareLoader.lazy_load (.init 50 20) (recordSeq 1 130) 20).2 = true ∧
    ((ThreadAwareLoader.lazy_load (.init 50 20) (recordSeq 1 130) 20).1.map
      windowRange) =
      [(1, 50), (31, 80), (61, 110), (91, 130), (81, 130), (111, 130)] := by
  decide

/-- C2, counterexample.  The claim: with ≥ `window_size` records and
`stride ≥ 1` the *last* emitted window has exactly `window_size`
members.  On records `No.1..No.130` with `window_size=50, overlap=20`
(stride 30 ≥ 1, 130 ≥ 50) the last emitted window has 20 members. -/
theorem C2_counterexample :
    (1 ≤ (50 : Int) - 20) ∧ ((50 : Int) ≤ ((recordSeq 1 130).length : Int)) ∧
    (ThreadAwareLoader.lazy_load (.init 50 20) (recordSeq 1 130) 20).2 = true ∧
    ((ThreadAwareLoader.lazy_load (.init 50 20) (recordSeq 1 130) 20).1.getLast?.map
      List.length) = some 20 ∧ (20 : Nat) ≠ 50 := by
  decide

/-- C2, amended.  For `overlap ≥ 0`, `stride = window_size − overlap ≥ 1`
and an input of at least `window_size` records: every window the chunker
emits (in particular the last) has at least `overlap` members, and the
*first* emitted window has exactly `window_size` members — but the last
window may be smaller than `window_size` (see the counterexample, where
it has exactly `overlap` members). -/
theorem C2_amended_window_sizes (w ov : Int) (docs : List Int) (fuel : Nat)
    (hov : 0 ≤ ov) (hs : 1 ≤ w - ov) (hlen : w ≤ (docs.length : Int))
    (ws : List Int)
    (hws : ws ∈ (ThreadAwareLoader.lazy_load (.init w ov) docs fuel).1) :
    ov ≤ (ws.length : Int) ∧
    ((ThreadAwareLoader.lazy_load (.init w ov) docs fuel).1.head?.map
      (fun l => (l.length : Int))) = some w := by
  constructor
  · exact windowsAux_size_ge w ov docs hov hs hlen fuel 0 le_rfl
      (fun _ => by omega) ws hws
  · cases fuel with
    | zero => simp [ThreadAwareLoader.lazy_load, windowsAux] at hws
    | succ n => exact windowsAux_head w ov docs (by omega) hlen n

/-- Witness for C2 (amended), at the 130-record example: the last window
`No.111..No.130` is a member of the output; it has exactly `overlap = 20`
members, and the head window has 50. -/
theorem C2_amended_window_sizes_witness :
    ((0 : Int) ≤ 20 ∧ 1 ≤ (50 : Int) - 20 ∧
      (50 : Int) ≤ ((recordSeq 1 130).length : Int) ∧
      recordSeq 111 20 ∈
        (ThreadAwareLoader.lazy_load (.init 50 20) (recordSeq 1 130) 20).1) ∧
    ((20 : Int) ≤ ((recordSeq 111 20).length : Int) ∧
      ((ThreadAwareLoader.lazy_load (.init 50 20) (recordSeq 1 130) 20).1.head?.map
        (fun l => (l.length : Int))) = some 50) :=
  ⟨⟨by decide, by decide, by decide, by decide⟩,
    C2_amended_window_sizes 50 20 (recordSeq 1 130) 20 (by decide) (by decide)
      (by decide) (recordSeq 111 20) (by decide)⟩

/-- C6, counterexample.  The claim: a configuration with
`stride = window_size − overlap < 1` is rejected with a fast failure and
the chunker is never constructed and run.  `ThreadAwareLoader.__init__`
(loader.py lines 77-86) performs no validation at all: constructing the
loader with `window_size = overlap = 20` succeeds, stores `stride = 0 < 1`,
and running it on a one-record input iterates without terminating (the
loop has not exited after 100 iterations). -/
theorem C6_counterexample :
    (ThreadAwareLoader.init 20 20).stride = 0 ∧
    (ThreadAwareLoader.init 20 20).stride < 1 ∧
    (ThreadAwareLoader.lazy_load (.init 20 20) [(1 : Int)] 100).2 = false := by
  decide

/-- C6, amended.  No configuration check exists: for any
`window_size = overlap = w > 0` the loader is constructed with
`stride = 0` and its emission loop on any nonempty input never reaches
its exit condition, for any number of iterations (the position returns
to 0 after every iteration). -/
theorem C6_amended_no_validation (w : Int) (docs : List Int) (fuel : Nat)
    (hw : 0 < w) (hne : docs ≠ []) :
    (ThreadAwareLoader.init w w).stride = 0 ∧
    (ThreadAwareLoader.lazy_load (.init w w) docs fuel).2 = false := by
  have hlen : (0 : Int) < (docs.length : Int) := by
    have := List.length_pos.mpr hne
    omega
  constructor
  · simp [ThreadAwareLoader.init]
  · unfold ThreadAwareLoader.lazy_load
    induction fuel with
    | zero => simp [windowsAux]
    | succ n ih =>
      rw [windowsAux]
      rw [if_pos hlen]
      simpa [nextPos_zero_stride] using ih

/-- Witness for C6 (amended): `window_size = overlap = 20` on input
`[1]` with 7 iterations of fuel. -/
theorem C6_amended_no_validation_witness :
    ((0 : Int) < 20 ∧ [(1 : Int)] ≠ []) ∧
    ((ThreadAwareLoader.init 20 20).stride = 0 ∧
      (ThreadAwareLoader.lazy_load (.init 20 20) [(1 : Int)] 7).2 = false) :=
  ⟨⟨by decide, by decide⟩,
    C6_amended_no_validation 20 [(1 : Int)] 7 (by decide) (by decide)⟩

/-- C7: for every oracle response whose stripped text is not the
sentinel `"NONE"` and does not parse as a comma-separated list of
integers (the comprehension `[int(no.strip()) for no in
reply_text.split(",")]` raises, modelled by `replyNos … = none`), reply
inference returns zero edges; the `except (ValueError, AttributeError)`
handler (pipeline.py lines 134-135) recovers locally, so the embedded
function is total and no exception reaches the caller. -/
theorem C7_malformed_response_no_edges (post_no : Int) (rag : List Int)
    (context_window : Nat) (response : String)
    (hne : pyStrip response ≠ "NONE")
    (hparse : replyNos (pyStrip response) = none) :
    infer_reply_relationships post_no rag context_window response = [] := by
  simp only [infer_reply_relationships]
  by_cases h1 : (contextSet post_no rag context_window).isEmpty
  · rw [if_pos h1]
  · rw [if_neg h1]
    by_cases h2 : pyStrip response ≠ "NONE" ∧ pyStrip response ≠ ""
    · rw [if_pos h2, hparse]
    · rw [if_neg h2]

/-- Witness for C7: the response `"12,abc"` is not `"NONE"` and fails to
parse, and inference over it returns no edges. -/
theorem C7_malformed_response_no_edges_witness :
    (pyStrip "12,abc" ≠ "NONE" ∧ replyNos (pyStrip "12,abc") = none) ∧
    infer_reply_relationships 130 [1, 2, 3] 50 "12,abc" = [] :=
  ⟨⟨by decide, by decide⟩,
    C7_malformed_response_no_edges 130 [1, 2, 3] 50 "12,abc" (by decide)
      (by decide)⟩

/-- C5, counterexample.  The claim: a returned target not among the
context set (the `context_window` most recent prior nodes) is discarded.
With store `{1, 2, 3, 4}`, new post 4 and `context_window = 2`, the
context set is `{3, 2}`; the oracle answer `"1"` names node 1, which is
*not* in the context set, yet the code creates the edge `4 → 1` —
the lookup (pipeline.py lines 121-123) checks the whole `posts` table,
not the context set. -/
theorem C5_counterexample :
    infer_reply_relationships 4 [1, 2, 3, 4] 2 "1" =
      [⟨4, 1, "IS_REPLY_TO", none⟩] ∧
    (1 : Int) ∉ contextSet 4 [1, 2, 3, 4] 2 := by
  decide

/-- C5, amended.  When the context is nonempty and the oracle response
parses as `nos`, an edge `post → t` is produced **iff** `t ∈ nos` and a
node with `source_post_no = t` exists in the store — membership of the
context set is not checked; targets outside it (hallucinated or not) are
accepted whenever they exist anywhere in the store, and only targets
matching no stored node are discarded. -/
theorem C5_amended_store_filter (post_no : Int) (rag : List Int)
    (context_window : Nat) (response : String) (nos : List Int) (t : Int)
    (hparse : replyNos (pyStrip response) = some nos)
    (hctx : contextSet post_no rag context_window ≠ []) :
    (∃ e ∈ infer_reply_relationships post_no rag context_window response,
      e.target_no = t) ↔ t ∈ nos ∧ t ∈ rag := by
  have hne : pyStrip response ≠ "NONE" := by
    intro h
    rw [h, show replyNos "NONE" = none from by decide] at hparse
    cases hparse
  have hne' : pyStrip response ≠ "" := by
    intro h
    rw [h, show replyNos "" = none from by decide] at hparse
    cases hparse
  have hemp : ¬ (contextSet post_no rag context_window).isEmpty = true := by
    simpa [List.isEmpty_iff] using hctx
  simp only [infer_reply_relationships]
  rw [if_neg hemp, if_pos ⟨hne, hne'⟩, hparse]
  constructor
  · rintro ⟨e, he, rfl⟩
    rw [List.mem_filterMap] at he
    obtain ⟨a, ha, hfa⟩ := he
    by_cases har : a ∈ rag
    · rw [if_pos har] at hfa
      obtain rfl : (⟨post_no, a, "IS_REPLY_TO", none⟩ : Rel) = e :=
        Option.some.inj hfa
      exact ⟨ha, har⟩
    · rw [if_neg har] at hfa
      cases hfa
  · rintro ⟨hn, hr⟩
    refine ⟨⟨post_no, t, "IS_REPLY_TO", none⟩, ?_, rfl⟩
    rw [List.mem_filterMap]
    exact ⟨t, hn, by rw [if_pos hr]⟩

/-- Witness for C5 (amended), at the counterexample input: the oracle
answer `"1"` parses to `[1]`, the context `{3, 2}` is nonempty, and the
edge to node 1 exists because node 1 is in the store. -/
theorem C5_amended_store_filter_witness :
    (replyNos (pyStrip "1") = some [1] ∧
      contextSet 4 [1, 2, 3, 4] 2 ≠ []) ∧
    ((∃ e ∈ infer_reply_relationships 4 [1, 2, 3, 4] 2 "1",
      e.target_no = 1) ↔
      (1 : Int) ∈ [(1 : Int)] ∧ (1 : Int) ∈ [(1 : Int), 2, 3, 4]) :=
  ⟨⟨by decide, by decide⟩,
    C5_amended_store_filter 4 [1, 2, 3, 4] 2 "1" [1] 1 (by decide)
      (by decide)⟩

/-- C10, counterexample.  The claim: inserting an edge whose
`(source, target, type)` triple is already present is a no-op or
rejected, never a duplicate, leaving at most one edge per triple.  The
`relationships` table (graph.py lines 25-44) has no uniqueness
constraint on the triple and `sync_batch` stages edges with a plain
`session.add`, so inserting the triple `(1, 2, IS_REPLY_TO)` into a
store already containing it yields two rows with that triple. -/
theorem C10_counterexample :
    ((insert_edge [⟨1, 2, "IS_REPLY_TO", none⟩]
        ⟨1, 2, "IS_REPLY_TO", none⟩).filter
      (fun e => decide (edgeTriple e =
        edgeTriple ⟨1, 2, "IS_REPLY_TO", none⟩))).length = 2 ∧
    ¬ (2 ≤ 1) := by
  decide

/-- C10, amended.  Edge insertion never deduplicates: inserting an edge
always adds one more row with its `(source, target, type)` triple.
Duplicates nevertheless do not arise from re-running synchronization
over already-synchronized records, because `sync_batch` re-processes
nothing: when every source record number is at most the stored
watermark (`max(source_post_no)`), extraction is empty and the run
returns processed count 0, stages no relationships, and leaves the node
set unchanged. -/
theorem C10_amended_no_dedup_but_rerun_noop (db : List Rel) (r : Rel)
    (oracle : Int → String) (source rag : List Int) (batch_size : Nat)
    (hsynced : ∀ s ∈ source, s ≤ get_last_processed_no rag) :
    ((insert_edge db r).filter
      (fun e => decide (edgeTriple e = edgeTriple r))).length =
      (db.filter (fun e => decide (edgeTriple e = edgeTriple r))).length + 1 ∧
    sync_batch oracle source rag batch_size = (0, [], rag) := by
  constructor
  · simp [insert_edge, List.filter_append]
  · have hfil : source.filter
        (fun no => decide (get_last_processed_no rag < no)) = [] := by
      rw [List.filter_eq_nil_iff]
      intro s hs
      simp only [decide_eq_true_eq]
      exact not_lt.mpr (hsynced s hs)
    simp only [sync_batch, extract_new_posts]
    rw [hfil, show sortAsc [] = ([] : List Int) from rfl, List.take_nil]
    rfl

/-- Witness for C10 (amended): store `{1}` with watermark 1, source
`{1}` fully synchronized: the duplicate count grows by one on
re-insertion and a sync re-run is a no-op. -/
theorem C10_amended_no_dedup_but_rerun_noop_witness :
    (∀ s ∈ [(1 : Int)], s ≤ get_last_processed_no [(1 : Int)]) ∧
    (((insert_edge [] (⟨1, 2, "IS_REPLY_TO", none⟩ : Rel)).filter
      (fun e => decide (edgeTriple e =
        edgeTriple (⟨1, 2, "IS_REPLY_TO", none⟩ : Rel)))).length =
      (([] : List Rel).filter (fun e => decide (edgeTriple e =
        edgeTriple (⟨1, 2, "IS_REPLY_TO", none⟩ : Rel)))).length + 1 ∧
    sync_batch (fun _ => "NONE") [(1 : Int)] [(1 : Int)] 5 =
      (0, [], [(1 : Int)])) :=
  ⟨by decide,
    C10_amended_no_dedup_but_rerun_noop [] ⟨1, 2, "IS_REPLY_TO", none⟩
      (fun _ => "NONE") [1] [1] 5 (by decide)⟩

/-- C4: a `sync_batch` run never stages an `IS_SEQUENTIAL_TO` edge.
New posts are processed in ascending `source_post_no` order starting
above the stored watermark `max(source_post_no)`, so when post `N` is
processed every node in the store (including the just-flushed `N`) has
`source_post_no ≤ N`, and the sequential query — which looks for stored
nodes with `no > N` — finds nothing. -/
theorem C4_sync_stages_no_sequential_edges (oracle : Int → String)
    (source rag : List Int) (batch_size : Nat) (e : Rel)
    (he : e ∈ (sync_batch oracle source rag batch_size).2.1) :
    e.rtype ≠ "IS_SEQUENTIAL_TO" := by
  have hsorted : List.Pairwise (· ≤ ·)
      (extract_new_posts source (get_last_processed_no rag) batch_size) :=
    (sortAsc_sorted _).sublist (List.take_sublist _ _)
  have hle : ∀ m ∈ rag,
      ∀ n ∈ extract_new_posts source (get_last_processed_no rag) batch_size,
        m ≤ n := by
    intro m hm n hn
    have h1 : m ≤ get_last_processed_no rag :=
      mem_le_get_last_processed_no rag m hm
    have hn' : n ∈ source.filter
        (fun no => decide (get_last_processed_no rag < no)) :=
      (sortAsc_mem _ n).mp ((List.take_sublist _ _).subset hn)
    have hlt := (List.mem_filter.mp hn').2
    simp only [decide_eq_true_eq] at hlt
    omega
  exact syncLoop_no_sequential oracle source _ rag hsorted hle e he

/-- Witness for C4: a concrete run over source `{1..5}` with store
`{1, 2}` and an oracle always answering `"2"` stages the reply edge
`3 → 2`; it is (like every staged edge) not sequential. -/
theorem C4_sync_stages_no_sequential_edges_witness :
    ((⟨3, 2, "IS_REPLY_TO", none⟩ : Rel) ∈
      (sync_batch (fun _ => "2") [1, 2, 3, 4, 5] [1, 2] 100).2.1) ∧
    (⟨3, 2, "IS_REPLY_TO", none⟩ : Rel).rtype ≠ "IS_SEQUENTIAL_TO" :=
  ⟨by decide,
    C4_sync_stages_no_sequential_edges (fun _ => "2") [1, 2, 3, 4, 5]
      [1, 2] 100 ⟨3, 2, "IS_REPLY_TO", none⟩ (by decide)⟩

/-- C8: with `S = last_processed_no + 1` the lowest new sequence number,
the incremental rebuild reads exactly the records with
`sequence_no ≥ max(0, S − window_size)` (update_index.py line 113 sets
`rebuild_start = max(0, last_processed_no − window_size)` and the
incremental reader takes `no > rebuild_start`; over integer record
numbers ≥ 1 these coincide), and every member of every window the
incremental loader emits lies in that suffix — windows entirely before
the boundary cannot be re-emitted. -/
theorem C8_incremental_rebuild_boundary (records : List Int)
    (last_processed window_size overlap : Int) (fuel : Nat)
    (hrec : ∀ no ∈ records, 1 ≤ no) (ws : List Int) (m : Int)
    (hws : ws ∈ (incremental_lazy_load last_processed window_size overlap
      records fuel).1)
    (hm : m ∈ ws) :
    incremental_read records last_processed window_size =
      sortAsc (records.filter (fun no =>
        decide (max 0 (last_processed + 1 - window_size) ≤ no))) ∧
    max 0 (last_processed + 1 - window_size) ≤ m := by
  have heq : incremental_read records last_processed window_size =
      sortAsc (records.filter (fun no =>
        decide (max 0 (last_processed + 1 - window_size) ≤ no))) := by
    unfold incremental_read
    congr 1
    apply List.filter_congr
    intro a ha
    rw [decide_eq_decide]
    have h1 := hrec a ha
    simp only [rebuild_start]
    rw [max_def, max_def]
    split <;> split <;> omega
  refine ⟨heq, ?_⟩
  have hmem : m ∈ incremental_read records last_processed window_size :=
    windowsAux_subset (.init window_size overlap) _ fuel 0 ws hws hm
  rw [heq] at hmem
  have hmem' := (sortAsc_mem _ m).mp hmem
  have := (List.mem_filter.mp hmem').2
  simpa using this

/-- Witness for C8: records `No.1..No.10`, `last_processed_no = 6`
(so `S = 7`), `window_size = 3`, `overlap = 1`: the re-read suffix is
exactly the records with `no ≥ max(0, 7−3) = 4`, and the member 10 of
the emitted window `[10]` lies at or above the boundary. -/
theorem C8_incremental_rebuild_boundary_witness :
    ((∀ no ∈ recordSeq 1 10, 1 ≤ no) ∧
      [(10 : Int)] ∈ (incremental_lazy_load 6 3 1 (recordSeq 1 10) 20).1 ∧
      (10 : Int) ∈ [(10 : Int)]) ∧
    (incremental_read (recordSeq 1 10) 6 3 =
      sortAsc ((recordSeq 1 10).filter (fun no =>
        decide (max 0 (6 + 1 - 3) ≤ no))) ∧
    max 0 ((6 : Int) + 1 - 3) ≤ 10) :=
  ⟨⟨by decide, by decide, by decide⟩,
    C8_incremental_rebuild_boundary (recordSeq 1 10) 6 3 1 20 (by decide)
      [(10 : Int)] 10 (by decide) (by decide)⟩

/-- C3, counterexample.  The claim: sequential inference creates an edge
`N → M` precisely for every existing node `M` with
`N.sequence_no < M.sequence_no ≤ N.sequence_no + window_size`, and no
created edge has distance greater than `window_size`.  The code
(pipeline.py lines 148-159) instead takes the next `window_size` *rows*
of the source table: with source numbers `{1, 3, 30}`, store `{1, 30}`
and `window_size = 20`, processing node 1 creates the single edge
`1 → 30` with distance 29 — node 30 is outside `(1, 21]` and the
distance exceeds `window_size`, while the claim's edge set for this
state is empty. -/
theorem C3_counterexample :
    create_sequential_relationships 1 [1, 3, 30] [1, 30] 20 =
      [⟨1, 30, "IS_SEQUENTIAL_TO", some 29⟩] ∧
    ¬ ((30 : Int) ≤ 1 + 20) ∧ ¬ ((29 : Int) ≤ 20) := by
  decide

/-- C3, amended.  Sequential inference creates an edge `N → M` precisely
for every store node `M` among the `window_size` smallest source record
numbers greater than `N.sequence_no`; every created edge goes from `N`,
has type `IS_SEQUENTIAL_TO` and carries
`properties.distance = M.sequence_no − N.sequence_no`.  Only when the
source numbering is duplicate-free and dense above `N` (all of
`N+1 … N+window_size` present) does this coincide with the claimed set
`{M : N < M.sequence_no ≤ N + window_size}` (and then no distance
exceeds `window_size`); with gaps, targets beyond `N + window_size` and
distances above `window_size` occur (see the counterexample). -/
theorem C3_amended_sequential_edges (post_no : Int) (source rag : List Int)
    (w : Nat) (t : Int) :
    ((∃ e ∈ create_sequential_relationships post_no source rag w,
        e.target_no = t) ↔
      (t ∈ (sortAsc (source.filter
          (fun no => decide (post_no < no)))).take w ∧ t ∈ rag)) ∧
    (∀ e ∈ create_sequential_relationships post_no source rag w,
      e.source_no = post_no ∧ e.rtype = "IS_SEQUENTIAL_TO" ∧
        e.dist = some (e.target_no - post_no)) ∧
    (source.Nodup →
      (∀ k : Nat, 1 ≤ k → k ≤ w → post_no + (k : Int) ∈ source) →
      ((∃ e ∈ create_sequential_relationships post_no source rag w,
          e.target_no = t) ↔
        (t ∈ rag ∧ post_no < t ∧ t ≤ post_no + (w : Int)))) := by
  have hchar : (∃ e ∈ create_sequential_relationships post_no source rag w,
      e.target_no = t) ↔
      (t ∈ (sortAsc (source.filter
        (fun no => decide (post_no < no)))).take w ∧ t ∈ rag) := by
    constructor
    · rintro ⟨e, he, rfl⟩
      simp only [create_sequential_relationships] at he
      rw [List.mem_map] at he
      obtain ⟨no, hno, rfl⟩ := he
      have h2 := List.mem_filter.mp hno
      exact ⟨h2.1, by simpa using h2.2⟩
    · rintro ⟨h1, h2⟩
      refine ⟨⟨post_no, t, "IS_SEQUENTIAL_TO", some (t - post_no)⟩, ?_, rfl⟩
      simp only [create_sequential_relationships]
      rw [List.mem_map]
      exact ⟨t, List.mem_filter.mpr ⟨h1, by simpa using h2⟩, rfl⟩
  refine ⟨hchar, ?_, ?_⟩
  · intro e he
    simp only [create_sequential_relationships] at he
    rw [List.mem_map] at he
    obtain ⟨no, _, rfl⟩ := he
    exact ⟨rfl, rfl, rfl⟩
  · intro hnd hdense
    rw [hchar]
    have hsorted : List.Pairwise (· ≤ ·)
        (sortAsc (source.filter (fun no => decide (post_no < no)))) :=
      sortAsc_sorted _
    have hnodup : (sortAsc (source.filter
        (fun no => decide (post_no < no)))).Nodup :=
      ((List.perm_insertionSort _ _).nodup_iff).mpr (hnd.filter _)
    have hstrict : List.Pairwise (· < ·)
        (sortAsc (source.filter (fun no => decide (post_no < no)))) :=
      (hsorted.and hnodup).imp fun h => lt_of_le_of_ne h.1 h.2
    have hdsub : seqRange post_no w ⊆
        (sortAsc (source.filter (fun no => decide (post_no < no)))).filter
          (fun x => decide (x ≤ post_no + (w : Int))) := by
      intro x hx
      rw [mem_seqRange] at hx
      have hxs : x ∈ source := by
        have hdx := hdense (x - post_no).toNat (by omega) (by omega)
        have hxx : post_no + (((x - post_no).toNat : Nat) : Int) = x := by
          omega
        rwa [hxx] at hdx
      rw [List.mem_filter]
      refine ⟨?_, by simpa using hx.2⟩
      rw [sortAsc_mem, List.mem_filter]
      exact ⟨hxs, by simpa using hx.1⟩
    have hdn : (seqRange post_no w).Nodup := by
      refine List.Nodup.map ?_ (List.nodup_range' 1 w)
      intro a b hab
      have h2 : post_no + (a : Int) = post_no + (b : Int) := hab
      omega
    have hlenf : w ≤ ((sortAsc (source.filter
        (fun no => decide (post_no < no)))).filter
          (fun x => decide (x ≤ post_no + (w : Int)))).length := by
      have hle := (hdn.subperm hdsub).length_le
      simpa [seqRange] using hle
    have htle : ∀ x ∈ (sortAsc (source.filter
        (fun no => decide (post_no < no)))).take w,
        x ≤ post_no + (w : Int) :=
      sorted_take_le _ _ hsorted w hlenf
    have hwl : w ≤ (sortAsc (source.filter
        (fun no => decide (post_no < no)))).length :=
      le_trans hlenf (List.length_filter_le _ _)
    have hlentake : ((sortAsc (source.filter
        (fun no => decide (post_no < no)))).take w).length = w := by
      rw [List.length_take]
      omega
    have htake : (sortAsc (source.filter
        (fun no => decide (post_no < no)))).take w = seqRange post_no w := by
      refine eq_seqRange_of_strict_bounded w post_no _
        (hstrict.sublist (List.take_sublist _ _)) hlentake ?_
      intro x hx
      refine ⟨?_, htle x hx⟩
      have hx' := (List.take_sublist _ _).subset hx
      rw [sortAsc_mem, List.mem_filter] at hx'
      simpa using hx'.2
    rw [htake, mem_seqRange]
    tauto

/-- Witness for C3 (amended): node 2, source `{1..5}` (duplicate-free
and dense), store `{2, 4}`, `window_size = 2`, target 4: the candidate
rows are `{3, 4}`, the single edge goes to 4, and the dense-case
characterization agrees. -/
theorem C3_amended_sequential_edges_witness :
    ((∃ e ∈ create_sequential_relationships 2 [1, 2, 3, 4, 5] [2, 4] 2,
        e.target_no = 4) ↔
      ((4 : Int) ∈ (sortAsc (([1, 2, 3, 4, 5] : List Int).filter
          (fun no => decide ((2 : Int) < no)))).take 2 ∧
        (4 : Int) ∈ [(2 : Int), 4])) ∧
    (∀ e ∈ create_sequential_relationships 2 [1, 2, 3, 4, 5] [2, 4] 2,
      e.source_no = 2 ∧ e.rtype = "IS_SEQUENTIAL_TO" ∧
        e.dist = some (e.target_no - 2)) ∧
    (([(1 : Int), 2, 3, 4, 5]).Nodup →
      (∀ k : Nat, 1 ≤ k → k ≤ 2 → (2 : Int) + (k : Int) ∈
        [(1 : Int), 2, 3, 4, 5]) →
      ((∃ e ∈ create_sequential_relationships 2 [1, 2, 3, 4, 5] [2, 4] 2,
          e.target_no = 4) ↔
        ((4 : Int) ∈ [(2 : Int), 4] ∧ (2 : Int) < 4 ∧
          (4 : Int) ≤ 2 + (2 : Nat)))) :=
  C3_amended_sequential_edges 2 [1, 2, 3, 4, 5] [2, 4] 2 4

/-- C9: for every finite graph (`posts`, `edges`), seed set, type
filter and parameters, the traversal — total by construction, so it
terminates on every finite graph — returns at most `max_nodes` posts,
sorted ascending by `source_post_no`, and every row the CTE builds
internally has depth at most `max_depth` (edges are expanded only up to
`max_depth`) and a path that never revisits a node. -/
theorem C9_traversal_bounds (posts : List GPost) (edges : List GEdge)
    (start_post_ids : List Nat) (relationship_types : Option (List String))
    (max_depth max_nodes : Nat) :
    (get_related_posts_recursive posts edges start_post_ids
      relationship_types max_depth max_nodes).length ≤ max_nodes ∧
    List.Sorted postLe (get_related_posts_recursive posts edges
      start_post_ids relationship_types max_depth max_nodes) ∧
    ∀ r ∈ cte_rows posts edges relationship_types start_post_ids max_depth,
      r.depth ≤ max_depth ∧ r.path.Nodup := by
  refine ⟨?_, ?_,
    cte_rows_spec posts edges relationship_types start_post_ids max_depth⟩
  · simp only [get_related_posts_recursive]
    split
    · simp
    · exact List.length_take_le _ _
  · simp only [get_related_posts_recursive]
    split
    · exact List.Pairwise.nil
    · exact (List.sorted_insertionSort postLe _).sublist
        (List.take_sublist _ _)

/-- Witness for C9, at the spec's own example graph: posts `N1, N3, N5`,
edges `N5 → N3` and `N3 → N1` of type `IS_REPLY_TO`, seeds `{N5}`,
`max_depth = 2`, `max_nodes = 50`. -/
theorem C9_traversal_bounds_witness :
    (get_related_posts_recursive [⟨1, 1⟩, ⟨3, 3⟩, ⟨5, 5⟩]
      [⟨5, 3, "IS_REPLY_TO"⟩, ⟨3, 1, "IS_REPLY_TO"⟩] [5]
      (some ["IS_REPLY_TO"]) 2 50).length ≤ 50 ∧
    List.Sorted postLe (get_related_posts_recursive [⟨1, 1⟩, ⟨3, 3⟩, ⟨5, 5⟩]
      [⟨5, 3, "IS_REPLY_TO"⟩, ⟨3, 1, "IS_REPLY_TO"⟩] [5]
      (some ["IS_REPLY_TO"]) 2 50) ∧
    ∀ r ∈ cte_rows [⟨1, 1⟩, ⟨3, 3⟩, ⟨5, 5⟩]
      [⟨5, 3, "IS_REPLY_TO"⟩, ⟨3, 1, "IS_REPLY_TO"⟩]
      (some ["IS_REPLY_TO"]) [5] 2,
      r.depth ≤ 2 ∧ r.path.Nodup :=
  C9_traversal_bounds [⟨1, 1⟩, ⟨3, 3⟩, ⟨5, 5⟩]
    [⟨5, 3, "IS_REPLY_TO"⟩, ⟨3, 1, "IS_REPLY_TO"⟩] [5]
    (some ["IS_REPLY_TO"]) 2 50

end BbsRag
